import Mathlib

/-!
Verification development for the widget-framework core of the `bottom`
dashboard: geometry hit-testing (`src/app/widgets.rs`) and the sortable,
scrollable `TextTable` component
(`src/tuine/component/base/text_table/mod.rs`).

Machine integers (`u16` in the source) are modelled as `Nat` with an
explicit `% 65536` at the operations that can wrap under release-mode
Rust semantics (the `Percentage` multiplication, the `as u16` casts).
Division by zero panics in Rust in every build mode, so the one place it
can occur (`width_remaining / (columns.len() as u16)` when the column
count is a positive multiple of 65536) is modelled by an `Option` result,
with `none` standing for the panic.
-/

namespace Bottom

/-! ## Geometry (src/app/widgets.rs) -/

/-- Model of `tui::layout::Rect`: position and size, all `u16` in the
source. The accessors `left`, `right`, `top`, `bottom` follow the tui
crate: `left = x`, `right = x + width`, `top = y`, `bottom = y + height`
(half-open extents). -/
structure Rect where
  x : Nat
  y : Nat
  width : Nat
  height : Nat
deriving DecidableEq

def Rect.left (r : Rect) : Nat := r.x

def Rect.right (r : Rect) : Nat := r.x + r.width

def Rect.top (r : Rect) : Nat := r.y

def Rect.bottom (r : Rect) : Nat := r.y + r.height

/-- Embedding of `does_bound_intersect_coordinate` from
`src/app/widgets.rs`:
`x >= bounds.left() && x < bounds.right() && y >= bounds.top() && y < bounds.bottom()`. -/
def does_bound_intersect_coordinate (x y : Nat) (bounds : Rect) : Bool :=
  decide (x ≥ bounds.left) && decide (x < bounds.right) &&
    decide (y ≥ bounds.top) && decide (y < bounds.bottom)

/-! ## Column model and width resolution (text_table/mod.rs) -/

/-- Embedding of `TextColumnConstraint` (module `table_column`). -/
inductive TextColumnConstraint where
  | Fill
  | Length (length : Nat)
  | Percentage (percentage : Nat)
  | MaxLength (length : Nat)
  | MaxPercentage (percentage : Nat)
deriving DecidableEq

/-- A text column. The source stores a display name; the width pass only
ever uses `column.name.graphemes(true).count()`, so the embedding carries
that grapheme count directly (grapheme segmentation itself lives in the
external `unicode_segmentation` crate). -/
structure TextColumn where
  nameGraphemeCount : Nat
  width_constraint : TextColumnConstraint
deriving DecidableEq

/-- The desired width of a named column:
`column.name.graphemes(true).count().saturating_add(1) as u16`
(a saturating `usize` increment followed by a truncating cast). -/
def TextColumn.desiredWidth (c : TextColumn) : Nat :=
  min (c.nameGraphemeCount + 1) (2 ^ 64 - 1) % 65536

/-- One step of the left-to-right pass of `update_column_widths`: the
width taken by one column given the table width and the remaining
budget. Mirrors the `match column.width_constraint` expression; the
`u16` multiplication `total_width * percentage` wraps, hence `% 65536`. -/
def columnPassWidth (total_width width_remaining : Nat) (c : TextColumn) : Nat :=
  match c.width_constraint with
  | .Fill => min c.desiredWidth width_remaining
  | .Length length => min length width_remaining
  | .Percentage percentage =>
      min (total_width * percentage % 65536 / 100) width_remaining
  | .MaxLength length => min (min length c.desiredWidth) width_remaining
  | .MaxPercentage percentage =>
      min (min c.desiredWidth (total_width * percentage % 65536 / 100)) width_remaining

/-- The left-to-right pass of `update_column_widths`: returns the list of
per-column widths together with the final `width_remaining`. Each width
is subtracted from the budget immediately, as in the source. -/
def passColumns (total_width : Nat) : List TextColumn → Nat → List Nat × Nat
  | [], width_remaining => ([], width_remaining)
  | c :: cs, width_remaining =>
    let w := columnPassWidth total_width width_remaining c
    let rest := passColumns total_width cs (width_remaining - w)
    (w :: rest.1, rest.2)

/-- The redistribution loop of `update_column_widths`: every column gains
`amount_per_slot`, and the columns whose index (cast to `u16`, hence
`% 65536`) is below the remainder gain one extra unit. -/
def redistribute (amount_per_slot rem2 : Nat) : Nat → List Nat → List Nat
  | _, [] => []
  | index, w :: ws =>
    (w + amount_per_slot + if index % 65536 < rem2 then 1 else 0)
      :: redistribute amount_per_slot rem2 (index + 1) ws

/-- Embedding of `update_column_widths` (on a bounds rectangle of the
given width). The source divides by `column_widths.len() as u16`; when
that cast is zero (a positive column count divisible by 65536) Rust
panics on the division, modelled as `none`. -/
def update_column_widths (columns : List TextColumn) (boundsWidth : Nat) :
    Option (List Nat) :=
  let pass := passColumns boundsWidth columns boundsWidth
  if pass.1.isEmpty then some pass.1
  else
    let len16 := pass.1.length % 65536
    if len16 = 0 then none
    else some (redistribute (pass.2 / len16) (pass.2 % len16) 0 pass.1)

/-- The width finally resolved for column `i` (0 when the pass panics or
the index is out of range). -/
def resolvedWidth (columns : List TextColumn) (boundsWidth i : Nat) : Nat :=
  ((update_column_widths columns boundsWidth).getD []).getD i 0
/-! ## Rows and sorting (text_table/mod.rs, `try_sort_data`) -/

/-- Modelled from the spec: `DataCell` (module `data_cell`) is absent from
the sources; the spec only requires cells to be orderable, so cells are
modelled as naturals with `cellCmp` as their `Ord::cmp`. -/
abbrev DataCell : Type := Nat

/-- The three-way comparison on cells (the `Ord` instance of the missing
`DataCell` module, modelled on naturals). -/
def cellCmp (a b : DataCell) : Ordering :=
  if a < b then .lt else if a = b then .eq else .gt

/-- Modelled from the spec: `DataRow` (module `data_row`) is absent from
the sources; per the spec it is an ordered sequence of cells, and
`row.get(column)` (Vec lookup) is positional, returning `None` past the
end. -/
abbrev DataRow : Type := List DataCell

/-- The row comparator passed to `sort_by` in `try_sort_data`:
present cells compare with `Ord::cmp`; a present cell is `Greater` than a
missing one, a missing cell `Less` than a present one, two missing cells
`Equal`. -/
def rowCmp (column : Nat) (a b : DataRow) : Ordering :=
  match a.get? column, b.get? column with
  | some x, some y => cellCmp x y
  | some _, none => .gt
  | none, some _ => .lt
  | none, none => .eq

/-- The notion of order induced by the comparator: `a` may sit before `b`
exactly when the comparator does not say `Greater`. -/
def rowLe (column : Nat) (a b : DataRow) : Prop := rowCmp column a b ≠ Ordering.gt

instance rowLeDecidable (column : Nat) : DecidableRel (rowLe column) :=
  fun a b => inferInstanceAs (Decidable (rowCmp column a b ≠ Ordering.gt))

/-- Rust `slice::sort_by` is a stable sort; a stable sort by a total
preorder is unique, so it is modelled by the stable `insertionSort` over
the same comparator. -/
def sortRows (column : Nat) (rows : List DataRow) : List DataRow :=
  rows.insertionSort (rowLe column)

/-- Embedding of `SortStatus`. -/
inductive SortStatus where
  | Unsortable
  | Sortable (column : Nat)
deriving DecidableEq

/-- Embedding of `try_sort_data`: sorts the rows by the designated column
when sortable, otherwise leaves them untouched. -/
def try_sort_data (sortable : SortStatus) (rows : List DataRow) : List DataRow :=
  match sortable with
  | .Sortable column => sortRows column rows
  | .Unsortable => rows

/-! ### Order facts for the row comparator -/

/-- The key a row is sorted by. -/
def sortKey (column : Nat) (r : DataRow) : Option Nat := r.get? column

/-- The order on keys induced by the comparator: missing first. -/
def keyLe : Option Nat → Option Nat → Prop
  | none, _ => True
  | some _, none => False
  | some x, some y => x ≤ y

/-! ## Gap layout and virtualization (TextTable::draw) -/

/-- The `table_gap` computation in `TextTable::draw`. Modelled from the
spec for the threshold: the constant `TABLE_GAP_HEIGHT_LIMIT` is absent
from the sources, so it is taken as a parameter `limit`. -/
def computeTableGap (show_gap : Bool) (numRows height limit : Nat) : Nat :=
  if show_gap = false ∨ (numRows + 2 > height ∧ height < limit) then 0 else 1

/-- `scrollable_height = rect.height.saturating_sub(1 + table_gap)`:
`Nat` subtraction is saturating. -/
def scrollableHeight (height table_gap : Nat) : Nat := height - (1 + table_gap)

/-- The end of the visible window in `TextTable::draw`:
`end = min(state.num_items(), start + scrollable_height)`. -/
def drawWindowStop (numItems start scrollable_height : Nat) : Nat :=
  min numItems (start + scrollable_height)

/-- The effect of `self.rows.drain(start..stop)` in `TextTable::draw`:
first component the drained (rendered) slice, second component the rows
the component still holds afterwards. -/
def drainDraw (rows : List DataRow) (start stop : Nat) : List DataRow × List DataRow :=
  ((rows.drop start).take (stop - start), rows.take start ++ rows.drop stop)

/-! ## Event handling (TextTable::on_event) -/

/-- Outcome status of an event handler (tuine `Status`; the module is
absent from the sources, its two referenced values are modelled). -/
inductive Status where
  | Ignored
  | Captured
deriving DecidableEq

/-- A keyboard event: the handler only inspects whether the modifier set
is empty; the key code is never examined (`_ => Status::Ignored`). -/
structure KeyEvent where
  modifiersEmpty : Bool
  code : Nat
deriving DecidableEq

/-- The mouse event kinds distinguished by `TextTable::on_event`; every
other crossterm kind falls into the wildcard arm, collapsed to `Other`. -/
inductive MouseEventKind where
  | DownLeft
  | ScrollDown
  | ScrollUp
  | Other
deriving DecidableEq

/-- A mouse event: kind plus absolute column/row coordinates. -/
structure MouseEvent where
  kind : MouseEventKind
  column : Nat
  row : Nat
deriving DecidableEq

/-- Embedding of tuine `Event`. -/
inductive Event where
  | Keyboard (ke : KeyEvent)
  | Mouse (me : MouseEvent)
deriving DecidableEq

/-- Modelled from the spec: the `ScrollState` module (table_scroll_state)
is absent from the sources. Per the spec it carries the highlighted
logical row index and the last-known item count. -/
structure ScrollState where
  current_index : Nat
  num_items : Nat
deriving DecidableEq

/-- Modelled from the spec: `set_num_items` records the row count. -/
def ScrollState.set_num_items (s : ScrollState) (n : Nat) : ScrollState :=
  { s with num_items := n }

/-- Modelled from the spec: scroll-down moves the highlighted index down
by `n`, clamped to the valid row bounds. -/
def ScrollState.move_down (s : ScrollState) (n : Nat) : ScrollState × Status :=
  if s.num_items = 0 then (s, .Ignored)
  else
    let new := min (s.current_index + n) (s.num_items - 1)
    if new = s.current_index then (s, .Ignored)
    else ({ s with current_index := new }, .Captured)

/-- Modelled from the spec: scroll-up moves the highlighted index up by
`n`, clamped at zero. -/
def ScrollState.move_up (s : ScrollState) (n : Nat) : ScrollState × Status :=
  let new := s.current_index - n
  if new = s.current_index then (s, .Ignored)
  else ({ s with current_index := new }, .Captured)

/-- Modelled from the spec: a body click sets the highlighted index from
the clicked visual row, translated to a logical row and kept in bounds. -/
def ScrollState.set_visual_index (s : ScrollState) (visual_index : Nat) :
    ScrollState × Status :=
  if visual_index ≤ s.num_items ∧ 0 < s.num_items then
    ({ s with current_index := visual_index - 1 }, .Captured)
  else (s, .Ignored)

/-- The fields of `TextTable` that `on_event` consults. `on_select` is the
optional selection-changed callback producing a `Message`. -/
structure TextTableModel (Message : Type) where
  rows : List DataRow
  sortable : SortStatus
  table_gap : Nat
  on_select : Option (Nat → Message)

/-- Embedding of `TextTable::on_event`. The result is the returned
`Status`, the scroll state after the call, and the list of messages the
call appended to the outbound queue (zero or one). `none` models the
`todo!()` panic reached by a header click on a sortable table. -/
def on_event {Message : Type} (t : TextTableModel Message) (state0 : ScrollState)
    (rect : Rect) (event : Event) : Option (Status × ScrollState × List Message) :=
  let state := state0.set_num_items t.rows.length
  match event with
  | .Keyboard ke =>
    if ke.modifiersEmpty then some (.Ignored, state, []) else some (.Ignored, state, [])
  | .Mouse me =>
    if does_bound_intersect_coordinate me.column me.row rect then
      match me.kind with
      | .DownLeft =>
        let y := me.row - rect.top
        if y = 0 then
          match t.sortable with
          | .Sortable _ => none
          | .Unsortable => some (.Ignored, state, [])
        else if y > t.table_gap then
          let r := state.set_visual_index (y - t.table_gap)
          some (r.2, r.1, [])
        else some (.Ignored, state, [])
      | .ScrollDown =>
        let r := state.move_down 1
        some (r.2, r.1,
          match t.on_select with
          | some f => [f r.1.current_index]
          | none => [])
      | .ScrollUp =>
        let r := state.move_up 1
        some (r.2, r.1,
          match t.on_select with
          | some f => [f r.1.current_index]
          | none => [])
      | .Other => some (.Ignored, state, [])
    else some (.Ignored, state, [])

/-- The example rows of the claim: cell 0 is a label, cell 1 the sort
key; row B has no cell at the sort column. -/
def exRowA : DataRow := [10, 1]

/-- Example row with a missing cell at the sort column. -/
def exRowB : DataRow := [20]

/-- Example row with sort key 2. -/
def exRowC : DataRow := [30, 2]

/-- A concrete sortable table used for event claims. -/
def exSortableTable : TextTableModel Nat :=
  { rows := [exRowA, exRowB, exRowC], sortable := .Sortable 0, table_gap := 0,
    on_select := none }

/-- A concrete unsortable table used for event claims. -/
def exUnsortableTable : TextTableModel Nat :=
  { rows := [exRowA, exRowB, exRowC], sortable := .Unsortable, table_gap := 0,
    on_select := none }

/-- A table with a selection callback, used as the C6 witness. -/
def exScrollTable : TextTableModel Nat :=
  { rows := [exRowA, exRowB, exRowC], sortable := .Unsortable, table_gap := 1,
    on_select := some (fun i => i + 100) }

/-- Columns whose desired width does not depend on the total table width:
`Fill`, `Length`, `MaxLength`. -/
def isFixedKind (c : TextColumn) : Bool :=
  match c.width_constraint with
  | .Fill | .Length _ | .MaxLength _ => true
  | _ => false

/-- The width-independent desired width of a fixed-kind column. -/
def fixedDesired (c : TextColumn) : Nat :=
  match c.width_constraint with
  | .Fill => c.desiredWidth
  | .Length length => length
  | .MaxLength length => min length c.desiredWidth
  | _ => 0

/-! ### Basic facts about the width pass -/

theorem columnPassWidth_le (total_width width_remaining : Nat) (c : TextColumn) :
    columnPassWidth total_width width_remaining c ≤ width_remaining := by
  unfold columnPassWidth
  cases c.width_constraint <;> simp

theorem columnPassWidth_zero (total_width : Nat) (c : TextColumn) :
    columnPassWidth total_width 0 c = 0 := by
  have h := columnPassWidth_le total_width 0 c
  omega

theorem passColumns_length (total_width : Nat) (cs : List TextColumn) (r : Nat) :
    (passColumns total_width cs r).1.length = cs.length := by
  induction cs generalizing r with
  | nil => rfl
  | cons c cs ih => simp [passColumns, ih]

theorem passColumns_sum (total_width : Nat) (cs : List TextColumn) (r : Nat) :
    (passColumns total_width cs r).1.sum + (passColumns total_width cs r).2 = r := by
  induction cs generalizing r with
  | nil => simp [passColumns]
  | cons c cs ih =>
    have hle := columnPassWidth_le total_width r c
    have h := ih (r - columnPassWidth total_width r c)
    simp only [passColumns, List.sum_cons]
    omega

theorem passColumns_zero (total_width : Nat) (cs : List TextColumn) :
    (passColumns total_width cs 0).1 = List.replicate cs.length 0 := by
  induction cs with
  | nil => rfl
  | cons c cs ih =>
    simp [passColumns, columnPassWidth_zero, ih, List.replicate_succ]

theorem rowLe_iff_keyLe (column : Nat) (a b : DataRow) :
    rowLe column a b ↔ keyLe (sortKey column a) (sortKey column b) := by
  unfold rowLe rowCmp sortKey keyLe cellCmp
  rcases ha : a.get? column with _ | x <;> rcases hb : b.get? column with _ | y <;> simp
  exact ⟨fun h => (Nat.le_total y x).elim (fun hyx => Nat.le_of_eq (h hyx)) id,
    fun hxy hyx => Nat.le_antisymm hxy hyx⟩

theorem keyLe_total (u v : Option Nat) : keyLe u v ∨ keyLe v u := by
  rcases u with _ | x <;> rcases v with _ | y <;> simp [keyLe]
  omega

theorem keyLe_trans {u v w : Option Nat} : keyLe u v → keyLe v w → keyLe u w := by
  rcases u with _ | x <;> rcases v with _ | y <;> rcases w with _ | z <;> simp [keyLe]
  omega

theorem keyLe_refl (u : Option Nat) : keyLe u u := by
  rcases u with _ | x <;> simp [keyLe]

instance rowLeTotal (column : Nat) : IsTotal DataRow (rowLe column) :=
  ⟨fun a b => by
    rw [rowLe_iff_keyLe, rowLe_iff_keyLe]
    exact keyLe_total _ _⟩

instance rowLeTrans (column : Nat) : IsTrans DataRow (rowLe column) :=
  ⟨fun a b c hab hbc => by
    rw [rowLe_iff_keyLe] at *
    exact keyLe_trans hab hbc⟩

theorem not_rowLe_key_ne {column : Nat} {a b : DataRow} (h : ¬ rowLe column a b) :
    sortKey column a ≠ sortKey column b := by
  intro heq
  exact h ((rowLe_iff_keyLe column a b).mpr (heq ▸ keyLe_refl _))

theorem filter_orderedInsert_key (column : Nat) (k : Option Nat) (a : DataRow)
    (s : List DataRow) :
    (s.orderedInsert (rowLe column) a).filter (fun r => decide (sortKey column r = k)) =
      if sortKey column a = k
      then a :: s.filter (fun r => decide (sortKey column r = k))
      else s.filter (fun r => decide (sortKey column r = k)) := by
  induction s with
  | nil =>
    by_cases hpa : sortKey column a = k <;> simp [List.orderedInsert, List.filter, hpa]
  | cons b s ih =>
    by_cases hr : rowLe column a b
    · by_cases hpa : sortKey column a = k <;>
        simp [List.orderedInsert, hr, List.filter_cons, hpa]
    · have hne := not_rowLe_key_ne hr
      by_cases hpa : sortKey column a = k
      · have hpb : ¬ sortKey column b = k := fun hb => hne (by rw [hpa, hb])
        simp [List.orderedInsert, hr, List.filter_cons, hpa, hpb, ih]
      · by_cases hpb : sortKey column b = k <;>
          simp [List.orderedInsert, hr, List.filter_cons, hpa, hpb, ih]

theorem filter_sortRows_key (column : Nat) (k : Option Nat) (l : List DataRow) :
    (sortRows column l).filter (fun r => decide (sortKey column r = k)) =
      l.filter (fun r => decide (sortKey column r = k)) := by
  induction l with
  | nil => rfl
  | cons a l ih =>
    show ((List.insertionSort (rowLe column) l).orderedInsert (rowLe column) a).filter _ = _
    rw [filter_orderedInsert_key]
    by_cases hpa : sortKey column a = k <;> unfold sortRows at ih <;>
      simp [List.filter_cons, hpa, ih]

/-! ## Claim theorems -/

/-- C8: `does_bound_intersect_coordinate` holds exactly on the half-open
box `left ≤ x < right`, `top ≤ y < bottom`; a point on `right` or
`bottom` is never contained, a point on `left` (resp. `top`) within the
other axis is contained, and a zero-width or zero-height rectangle
contains no point. -/
theorem c8_hit_testing_half_open :
    (∀ (x y : Nat) (r : Rect),
        does_bound_intersect_coordinate x y r = true ↔
          (r.left ≤ x ∧ x < r.right ∧ r.top ≤ y ∧ y < r.bottom)) ∧
    (∀ (y : Nat) (r : Rect), does_bound_intersect_coordinate r.right y r = false) ∧
    (∀ (x : Nat) (r : Rect), does_bound_intersect_coordinate x r.bottom r = false) ∧
    (∀ (y : Nat) (r : Rect), r.width ≠ 0 → r.top ≤ y → y < r.bottom →
        does_bound_intersect_coordinate r.left y r = true) ∧
    (∀ (x : Nat) (r : Rect), r.height ≠ 0 → r.left ≤ x → x < r.right →
        does_bound_intersect_coordinate x r.top r = true) ∧
    (∀ (x y a b hh : Nat), does_bound_intersect_coordinate x y ⟨a, b, 0, hh⟩ = false) ∧
    (∀ (x y a b w : Nat), does_bound_intersect_coordinate x y ⟨a, b, w, 0⟩ = false) := by
  refine ⟨?_, ?_, ?_, ?_, ?_, ?_, ?_⟩ <;> intros <;>
    simp [does_bound_intersect_coordinate, Rect.left, Rect.right, Rect.top, Rect.bottom]
      at * <;> omega

/-- Witness for C8 at a concrete rectangle: the left edge is contained,
per the theorem applied at x-range witness 3. -/
theorem c8_witness :
    does_bound_intersect_coordinate 1 3 ⟨1, 2, 4, 5⟩ = true ∧
    does_bound_intersect_coordinate 4 2 ⟨1, 2, 4, 5⟩ = true :=
  ⟨c8_hit_testing_half_open.2.2.2.1 3 ⟨1, 2, 4, 5⟩ (by decide) (by decide) (by decide),
    c8_hit_testing_half_open.2.2.2.2.1 4 ⟨1, 2, 4, 5⟩ (by decide) (by decide) (by decide)⟩

/-- C10: in the left-to-right pass, every computed column width is at
most the remaining budget at that column (so the immediate subtraction
from the budget never underflows and the budget stays non-negative), at
budget zero every column resolves to width zero (a too-narrow table
truncates later columns to zero), and the widths consumed plus the final
leftover always reconstitute the initial budget. -/
theorem c10_pass_budget_safety :
    (∀ (total_width width_remaining : Nat) (c : TextColumn),
        columnPassWidth total_width width_remaining c ≤ width_remaining) ∧
    (∀ (total_width : Nat) (c : TextColumn), columnPassWidth total_width 0 c = 0) ∧
    (∀ (total_width : Nat) (cs : List TextColumn) (budget : Nat),
        (passColumns total_width cs budget).1.sum +
          (passColumns total_width cs budget).2 = budget) ∧
    (∀ (total_width : Nat) (cs : List TextColumn),
        (passColumns total_width cs 0).1 = List.replicate cs.length 0) :=
  ⟨columnPassWidth_le, columnPassWidth_zero, passColumns_sum, passColumns_zero⟩

/-- C5: the gap row is present (`table_gap = 1`) exactly when gaps are
enabled and it is not the case that the rows plus two exceed the height
while the height is below the threshold; the gap is never more than one
row; and the scrollable row count is the height minus the header row
minus the gap, with saturating subtraction. -/
theorem c5_gap_and_scrollable_height :
    (∀ (show_gap : Bool) (numRows height limit : Nat),
        computeTableGap show_gap numRows height limit = 1 ↔
          (show_gap = true ∧ ¬(numRows + 2 > height ∧ height < limit))) ∧
    (∀ (show_gap : Bool) (numRows height limit : Nat),
        computeTableGap show_gap numRows height limit ≤ 1) ∧
    (∀ (height table_gap : Nat),
        scrollableHeight height table_gap = height - 1 - table_gap) := by
  refine ⟨?_, ?_, ?_⟩
  · intro sg n h limit
    rcases sg <;> simp [computeTableGap]
  · intro sg n h limit
    unfold computeTableGap
    split <;> omega
  · intro h g
    unfold scrollableHeight
    omega

/-- C3: `TextTable::draw` drains the visible slice `[start, stop)` out of
the row set: afterwards the component holds `n - w` rows, where `w` is
the size of the visible window, and the rows it held are exactly the
prefix before the window, the rendered slice, and the suffix after it. -/
theorem c3_draw_drains_visible_slice (rows : List DataRow) (start scrollable_height : Nat)
    (hstart : start ≤ rows.length) :
    (drainDraw rows start (drawWindowStop rows.length start scrollable_height)).2.length =
        rows.length - (drawWindowStop rows.length start scrollable_height - start) ∧
    rows.take start ++
        (drainDraw rows start (drawWindowStop rows.length start scrollable_height)).1 ++
        rows.drop (drawWindowStop rows.length start scrollable_height) = rows := by
  constructor
  · simp only [drainDraw, drawWindowStop, List.length_append, List.length_take,
      List.length_drop]
    omega
  · simp only [drainDraw, drawWindowStop]
    rw [List.append_assoc]
    have h2 := List.drop_take_append_drop rows start
        (min rows.length (start + scrollable_height) - start)
    rw [show start + (min rows.length (start + scrollable_height) - start) =
        min rows.length (start + scrollable_height) from by omega] at h2
    rw [h2, List.take_append_drop]

/-- Witness for C3 at a concrete four-row table with a window of two rows
starting at index one. -/
theorem c3_witness :
    (drainDraw [[1], [2], [3], [4]] 1 (drawWindowStop 4 1 2)).2.length =
        4 - (drawWindowStop 4 1 2 - 1) ∧
    List.take 1 [[1], [2], [3], [4]] ++
        (drainDraw [[1], [2], [3], [4]] 1 (drawWindowStop 4 1 2)).1 ++
        List.drop (drawWindowStop 4 1 2) [[1], [2], [3], [4]] = [[1], [2], [3], [4]] :=
  c3_draw_drains_visible_slice [[1], [2], [3], [4]] 1 2 (by decide)

/-- C2 is false on the code: sorting `[(A,1), (B,missing), (C,2)]` by the
designated column yields `[(B,missing), (A,1), (C,2)]` — the comparator
makes a present cell `Greater` than a missing one, so missing rows sort
to the front, not the end as the claim states. -/
theorem c2_counterexample :
    try_sort_data (.Sortable 1) [exRowA, exRowB, exRowC] = [exRowB, exRowA, exRowC] ∧
    try_sort_data (.Sortable 1) [exRowA, exRowB, exRowC] ≠ [exRowA, exRowC, exRowB] := by
  decide

/-- C2 amended: a row whose cell at the designated column is missing
compares as LESS than a row whose cell is present (missing values end up
at the START of the sorted order), two missing cells compare equal, and
the example sorts to `[(B,missing), (A,1), (C,2)]`. -/
theorem c2_amended_missing_sorts_first :
    (∀ (column : Nat) (a b : DataRow),
        a.get? column = none → (b.get? column).isSome = true →
        rowCmp column a b = .lt) ∧
    (∀ (column : Nat) (a b : DataRow),
        a.get? column = none → b.get? column = none →
        rowCmp column a b = .eq) ∧
    (∀ (column : Nat) (a b : DataRow),
        (a.get? column).isSome = true → b.get? column = none →
        rowCmp column a b = .gt) ∧
    try_sort_data (.Sortable 1) [exRowA, exRowB, exRowC] = [exRowB, exRowA, exRowC] := by
  refine ⟨?_, ?_, ?_, by decide⟩
  · intro column a b ha hb
    rcases hby : b.get? column with _ | y
    · rw [hby] at hb
      simp at hb
    · unfold rowCmp
      rw [ha, hby]
  · intro column a b ha hb
    unfold rowCmp
    rw [ha, hb]
  · intro column a b ha hb
    rcases hay : a.get? column with _ | x
    · rw [hay] at ha
      simp at ha
    · unfold rowCmp
      rw [hay, hb]

/-- Witness for C2 (amended) at concrete rows, one per comparator case. -/
theorem c2_amended_witness :
    rowCmp 0 ([] : DataRow) [5] = .lt ∧ rowCmp 2 [1] [2] = .eq ∧
    rowCmp 0 [5] ([] : DataRow) = .gt :=
  ⟨c2_amended_missing_sorts_first.1 0 [] [5] rfl rfl,
    c2_amended_missing_sorts_first.2.1 2 [1] [2] rfl rfl,
    c2_amended_missing_sorts_first.2.2.1 0 [5] [] rfl rfl⟩

/-- C7: the table row sort is idempotent (re-sorting a sorted row list
changes nothing, also through `try_sort_data`) and stable: for every key
value, the subsequence of rows carrying that key is preserved exactly, in
its original relative order. -/
theorem c7_sort_stable_and_idempotent :
    (∀ (column : Nat) (l : List DataRow),
        sortRows column (sortRows column l) = sortRows column l) ∧
    (∀ (s : SortStatus) (l : List DataRow),
        try_sort_data s (try_sort_data s l) = try_sort_data s l) ∧
    (∀ (column : Nat) (l : List DataRow) (k : Option Nat),
        (sortRows column l).filter (fun r => decide (sortKey column r = k)) =
          l.filter (fun r => decide (sortKey column r = k))) := by
  have hid : ∀ (column : Nat) (l : List DataRow),
      sortRows column (sortRows column l) = sortRows column l := fun column l =>
    List.Sorted.insertionSort_eq (List.sorted_insertionSort _ _)
  refine ⟨hid, ?_, fun column l k => filter_sortRows_key column k l⟩
  intro s l
  cases s with
  | Unsortable => rfl
  | Sortable column => exact hid column l

/-- C4 is false on the code: a left click on the header row of a sortable
table reaches the `todo!()` placeholder, which panics (modelled `none`)
instead of triggering a sort action. -/
theorem c4_counterexample :
    on_event exSortableTable ⟨0, 0⟩ ⟨0, 0, 10, 5⟩ (.Mouse ⟨.DownLeft, 2, 0⟩) = none := rfl

/-- C4 amended: a left click inside the bounds with `relative_y == 0`
reaches the unimplemented `todo!()` sort placeholder (a panic, modelled
`none`) when the table is sortable — no sort action is performed and no
column index is derived — and returns `Ignored` when unsortable. -/
theorem c4_amended_header_click {Message : Type} (t : TextTableModel Message)
    (state0 : ScrollState) (rect : Rect) (me : MouseEvent)
    (hkind : me.kind = .DownLeft)
    (hin : does_bound_intersect_coordinate me.column me.row rect = true)
    (hy : me.row - rect.top = 0) :
    on_event t state0 rect (.Mouse me) =
      match t.sortable with
      | .Sortable _ => none
      | .Unsortable => some (.Ignored, state0.set_num_items t.rows.length, []) := by
  rcases me with ⟨kind, mc, mr⟩
  simp only at hkind hin hy
  subst hkind
  unfold on_event
  simp only [hin, if_true, hy, if_pos]

/-- Witness for C4 (amended): on the unsortable table the header click is
ignored. -/
theorem c4_witness :
    on_event exUnsortableTable ⟨0, 0⟩ ⟨0, 0, 10, 5⟩ (.Mouse ⟨.DownLeft, 2, 0⟩) =
      some (.Ignored, ⟨0, 3⟩, ([] : List Nat)) :=
  c4_amended_header_click exUnsortableTable ⟨0, 0⟩ ⟨0, 0, 10, 5⟩ ⟨.DownLeft, 2, 0⟩
    rfl (by decide) rfl

/-- C6: every keyboard event (with or without modifiers) yields `Ignored`
and emits no message; every mouse event outside the bounds yields
`Ignored` and emits no message; and every event emits at most one
message. -/
theorem c6_event_message_discipline :
    (∀ (Message : Type) (t : TextTableModel Message) (state0 : ScrollState) (rect : Rect)
        (ke : KeyEvent),
        on_event t state0 rect (.Keyboard ke) =
          some (.Ignored, state0.set_num_items t.rows.length, [])) ∧
    (∀ (Message : Type) (t : TextTableModel Message) (state0 : ScrollState) (rect : Rect)
        (me : MouseEvent),
        does_bound_intersect_coordinate me.column me.row rect = false →
        on_event t state0 rect (.Mouse me) =
          some (.Ignored, state0.set_num_items t.rows.length, [])) ∧
    (∀ (Message : Type) (t : TextTableModel Message) (state0 : ScrollState) (rect : Rect)
        (ev : Event) (st : Status) (s2 : ScrollState) (msgs : List Message),
        on_event t state0 rect ev = some (st, s2, msgs) → msgs.length ≤ 1) := by
  refine ⟨?_, ?_, ?_⟩
  · intro Message t state0 rect ke
    unfold on_event
    cases hke : ke.modifiersEmpty <;> simp
  · intro Message t state0 rect me h
    unfold on_event
    simp [h]
  · intro Message t state0 rect ev st s2 msgs h
    unfold on_event at h
    rcases ev with ke | me
    · cases hke : ke.modifiersEmpty <;> simp [hke] at h <;> simp [h.2.2]
    · rcases me with ⟨kind, mc, mr⟩
      by_cases hint : does_bound_intersect_coordinate mc mr rect = true
      · rcases kind
        · by_cases hy : mr - rect.top = 0
          · rcases hs : t.sortable with _ | column <;> simp [hint, hy, hs] at h
            simp [h.2.2]
          · by_cases hgap : mr - rect.top > t.table_gap <;>
              simp [hint, hy, hgap] at h <;> simp [h.2.2]
        · rcases hsel : t.on_select with _ | f <;> simp [hint, hsel] at h <;>
            first
              | simp [h.2.2]
              | simp [← h.2.2]
        · rcases hsel : t.on_select with _ | f <;> simp [hint, hsel] at h <;>
            first
              | simp [h.2.2]
              | simp [← h.2.2]
        · simp [hint] at h
          simp [h.2.2]
      · simp [hint] at h
        simp [h.2.2]

/-- Witness for C6: a scroll event with a callback emits exactly one
message (so at most one), and a click outside the bounds is ignored. -/
theorem c6_witness :
    ([(101 : Nat)] : List Nat).length ≤ 1 ∧
    on_event exScrollTable ⟨0, 0⟩ ⟨0, 0, 5, 5⟩ (.Mouse ⟨.DownLeft, 6, 6⟩) =
      some (.Ignored, ⟨0, 3⟩, ([] : List Nat)) :=
  ⟨c6_event_message_discipline.2.2 Nat exScrollTable ⟨0, 0⟩ ⟨0, 0, 5, 5⟩
      (.Mouse ⟨.ScrollDown, 1, 1⟩) .Captured ⟨1, 3⟩ [101] (by decide),
    c6_event_message_discipline.2.1 Nat exScrollTable ⟨0, 0⟩ ⟨0, 0, 5, 5⟩
      ⟨.DownLeft, 6, 6⟩ (by decide)⟩

/-! ### Redistribution lemmas and the width-sum claim -/

theorem redistribute_length (amount_per_slot rem2 i : Nat) (ws : List Nat) :
    (redistribute amount_per_slot rem2 i ws).length = ws.length := by
  induction ws generalizing i with
  | nil => rfl
  | cons w ws ih => simp [redistribute, ih]

theorem redistribute_sum (amount_per_slot rem2 : Nat) (ws : List Nat) (i : Nat)
    (hle : i + ws.length ≤ 65536) :
    (redistribute amount_per_slot rem2 i ws).sum =
      ws.sum + ws.length * amount_per_slot +
        (min rem2 (i + ws.length) - min rem2 i) := by
  induction ws generalizing i with
  | nil => simp [redistribute]
  | cons w ws ih =>
    have hlen : i + (w :: ws).length ≤ 65536 := hle
    simp only [List.length_cons] at hlen
    have him : i % 65536 = i := Nat.mod_eq_of_lt (by omega)
    have ih2 := ih (i + 1) (by omega)
    simp only [redistribute, List.sum_cons, him, List.length_cons, ih2]
    rw [Nat.succ_mul]
    split <;> omega

/-- In the supported regime (positive column count below 65536) the
update succeeds and produces exactly the redistribution of the pass. -/
theorem update_column_widths_eq (columns : List TextColumn) (w : Nat)
    (hne : columns ≠ []) (hlen : columns.length < 65536) :
    update_column_widths columns w =
      some (redistribute ((passColumns w columns w).2 / columns.length)
        ((passColumns w columns w).2 % columns.length) 0 (passColumns w columns w).1) := by
  have hplen := passColumns_length w columns w
  have hnonnil : (passColumns w columns w).1.isEmpty = false := by
    cases hp : (passColumns w columns w).1 with
    | nil =>
      rw [hp] at hplen
      exact absurd (List.length_eq_zero.mp hplen.symm) hne
    | cons a l => rfl
  have hlz : columns.length ≠ 0 := by
    intro h0
    exact hne (List.length_eq_zero.mp h0)
  simp only [update_column_widths, hnonnil, Bool.false_eq_true, if_false, hplen,
    Nat.mod_eq_of_lt hlen]
  rw [if_neg hlz]

/-- C1 amended: for every NON-EMPTY list of FEWER THAN 65536 column
declarations and every available width, `update_column_widths` succeeds
and the resolved per-column widths sum exactly to the available width.
(The bound is forced: at 65536 columns the `columns.len() as u16` cast is
zero and the code panics on a division by zero.) -/
theorem c1_amended_width_sum (columns : List TextColumn) (w : Nat)
    (hne : columns ≠ []) (hlen : columns.length < 65536) :
    ∃ ws, update_column_widths columns w = some ws ∧ ws.sum = w := by
  refine ⟨_, update_column_widths_eq columns w hne hlen, ?_⟩
  have hplen := passColumns_length w columns w
  have hsum := passColumns_sum w columns w
  have hlz : 0 < columns.length := by
    cases columns with
    | nil => exact absurd rfl hne
    | cons c cs => simp
  rw [redistribute_sum _ _ _ 0 (by omega)]
  have hmodlt : (passColumns w columns w).2 % columns.length < columns.length :=
    Nat.mod_lt _ hlz
  have hdm := Nat.div_add_mod (passColumns w columns w).2 columns.length
  rw [hplen]
  omega

/-- C1 as stated is false on the code: with 65536 columns the
`columns.len() as u16` cast is zero, the redistribution divides by zero
and the code panics, so no widths are produced at all. -/
theorem c1_counterexample :
    ¬ ∃ ws,
        update_column_widths (List.replicate 65536 ⟨0, .Length 0⟩) 5 = some ws ∧
          ws.sum = 5 := by
  have hplen : (passColumns 5 (List.replicate 65536 ⟨0, .Length 0⟩) 5).1.length
      = 65536 := by
    rw [passColumns_length, List.length_replicate]
  have h : update_column_widths (List.replicate 65536 ⟨0, .Length 0⟩) 5 = none := by
    have hnonnil : (passColumns 5 (List.replicate 65536 ⟨0, .Length 0⟩) 5).1.isEmpty
        = false := by
      cases hp : (passColumns 5 (List.replicate 65536 ⟨0, .Length 0⟩) 5).1 with
      | nil =>
        rw [hp] at hplen
        simp only [List.length_nil] at hplen
        omega
      | cons a l => rfl
    simp only [update_column_widths, hnonnil, Bool.false_eq_true, if_false, hplen]
    simp only [Nat.mod_self, if_true]
  rintro ⟨ws, hws, _⟩
  rw [h] at hws
  exact Option.noConfusion hws

/-- Witness for C1 (amended) at the three-column scenario of the spec
(`Fill` with a two-grapheme name, `Length(5)`, `Percentage(20)`) on a
table forty cells wide. -/
theorem c1_witness :
    ∃ ws,
      update_column_widths [⟨2, .Fill⟩, ⟨4, .Length 5⟩, ⟨3, .Percentage 20⟩] 40 =
        some ws ∧ ws.sum = 40 :=
  c1_amended_width_sum _ 40 (by simp) (by decide)

/-! ### Monotonicity of width resolution for width-independent columns -/

theorem columnPassWidth_fixed (tw r : Nat) (c : TextColumn)
    (h : isFixedKind c = true) :
    columnPassWidth tw r c = min (fixedDesired c) r := by
  obtain ⟨nc, wc⟩ := c
  unfold isFixedKind at h
  unfold columnPassWidth fixedDesired
  cases wc <;> simp_all

theorem passColumns_getD_mono (cs : List TextColumn)
    (hfk : ∀ c ∈ cs, isFixedKind c = true) (tw1 tw2 r1 r2 : Nat) (hr : r1 ≤ r2)
    (i : Nat) :
    (passColumns tw1 cs r1).1.getD i 0 ≤ (passColumns tw2 cs r2).1.getD i 0 := by
  induction cs generalizing r1 r2 i with
  | nil => simp [passColumns]
  | cons c cs ih =>
    have hc := hfk c (List.mem_cons_self c cs)
    have hcs : ∀ x ∈ cs, isFixedKind x = true := fun x hx =>
      hfk x (List.mem_cons_of_mem c hx)
    simp only [passColumns]
    cases i with
    | zero =>
      simp only [List.getD_cons_zero]
      rw [columnPassWidth_fixed tw1 r1 c hc, columnPassWidth_fixed tw2 r2 c hc]
      omega
    | succ i =>
      simp only [List.getD_cons_succ]
      apply ih hcs
      rw [columnPassWidth_fixed tw1 r1 c hc, columnPassWidth_fixed tw2 r2 c hc]
      omega

theorem passColumns_rem_mono (cs : List TextColumn)
    (hfk : ∀ c ∈ cs, isFixedKind c = true) (tw1 tw2 r1 r2 : Nat) (hr : r1 ≤ r2) :
    (passColumns tw1 cs r1).2 ≤ (passColumns tw2 cs r2).2 := by
  induction cs generalizing r1 r2 with
  | nil => simpa [passColumns] using hr
  | cons c cs ih =>
    have hc := hfk c (List.mem_cons_self c cs)
    have hcs : ∀ x ∈ cs, isFixedKind x = true := fun x hx =>
      hfk x (List.mem_cons_of_mem c hx)
    simp only [passColumns]
    apply ih hcs
    rw [columnPassWidth_fixed tw1 r1 c hc, columnPassWidth_fixed tw2 r2 c hc]
    omega

/-- One step of the per-slot gain monotonicity: raising the leftover by
one never lowers the gain `rem / n + (1 if the slot index is below
rem % n)` of any slot. -/
theorem slot_gain_step (n i m : Nat) :
    m / n + (if i < m % n then 1 else 0) ≤
      (m + 1) / n + (if i < (m + 1) % n then 1 else 0) := by
  match n with
  | 0 =>
    simp only [Nat.div_zero, Nat.mod_zero]
    split_ifs <;> omega
  | 1 =>
    simp
  | (nn + 2) =>
    have hd := Nat.div_add_mod m (nn + 2)
    have hm : m % (nn + 2) < nn + 2 := Nat.mod_lt _ (by omega)
    by_cases hdvd : (nn + 2) ∣ m + 1
    · have h1 : (m + 1) / (nn + 2) = m / (nn + 2) + 1 := by
        rw [Nat.succ_div, if_pos hdvd]
      have h2 : (m + 1) % (nn + 2) = 0 := Nat.mod_eq_zero_of_dvd hdvd
      rw [h1, h2]
      split_ifs <;> omega
    · have hne : m % (nn + 2) + 1 ≠ nn + 2 := fun heq =>
        hdvd ⟨m / (nn + 2) + 1, by rw [Nat.mul_succ]; omega⟩
      have h1 : (m + 1) / (nn + 2) = m / (nn + 2) + 0 := by
        rw [Nat.succ_div, if_neg hdvd]
      have h2 : (m + 1) % (nn + 2) = m % (nn + 2) + 1 := by
        rw [Nat.add_mod, Nat.mod_eq_of_lt (show (1 : Nat) < nn + 2 by omega),
          Nat.mod_eq_of_lt (show m % (nn + 2) + 1 < nn + 2 by omega)]
      rw [h1, h2]
      split_ifs <;> omega

/-- The per-slot gain of the redistribution is monotone in the leftover
width. -/
theorem slot_gain_mono (n i : Nat) {rem1 rem2 : Nat} (h : rem1 ≤ rem2) :
    rem1 / n + (if i < rem1 % n then 1 else 0) ≤
      rem2 / n + (if i < rem2 % n then 1 else 0) := by
  obtain ⟨k, rfl⟩ : ∃ k, rem2 = rem1 + k := ⟨rem2 - rem1, by omega⟩
  clear h
  induction k with
  | zero => simp
  | succ k ih =>
    refine le_trans ih ?_
    rw [← Nat.add_assoc]
    exact slot_gain_step n i (rem1 + k)

theorem redistribute_getD (amount_per_slot rem2 : Nat) (ws : List Nat) (i j : Nat)
    (hj : j < ws.length) :
    (redistribute amount_per_slot rem2 i ws).getD j 0 =
      ws.getD j 0 + amount_per_slot +
        (if (i + j) % 65536 < rem2 then 1 else 0) := by
  induction ws generalizing i j with
  | nil => simp at hj
  | cons w ws ih =>
    cases j with
    | zero => simp [redistribute]
    | succ j =>
      have hj2 : j < ws.length := by simpa using hj
      simp only [redistribute, List.getD_cons_succ]
      rw [ih (i + 1) j hj2]
      have hia : i + 1 + j = i + (j + 1) := by omega
      rw [hia]

/-- C9 amended: holding the declarations fixed, width resolution is
monotone in the available width for every column, provided every column
is of a width-independent kind (`Fill`, `Length`, `MaxLength`) and there
are fewer than 65536 columns. (`Percentage` and `MaxPercentage` columns
are excluded: their computed width depends on the total width, which the
counterexample shows can shrink other columns, and can itself shrink
under the wrapping `u16` multiplication.) -/
theorem c9_amended_fixed_kind_monotone (columns : List TextColumn)
    (hfk : ∀ c ∈ columns, isFixedKind c = true) (hlen : columns.length < 65536)
    (w1 w2 : Nat) (hw : w1 ≤ w2) (i : Nat) :
    resolvedWidth columns w1 i ≤ resolvedWidth columns w2 i := by
  cases columns with
  | nil => simp [resolvedWidth, update_column_widths, passColumns]
  | cons c cs =>
    have hne : (c :: cs) ≠ ([] : List TextColumn) := by simp
    rw [resolvedWidth, resolvedWidth, update_column_widths_eq _ w1 hne hlen,
      update_column_widths_eq _ w2 hne hlen]
    simp only [Option.getD_some]
    by_cases hi : i < (c :: cs).length
    · have hp1 : i < (passColumns w1 (c :: cs) w1).1.length := by
        rw [passColumns_length]
        exact hi
      have hp2 : i < (passColumns w2 (c :: cs) w2).1.length := by
        rw [passColumns_length]
        exact hi
      rw [redistribute_getD _ _ _ 0 i hp1, redistribute_getD _ _ _ 0 i hp2]
      have hzi : (0 + i) % 65536 = i := by
        rw [Nat.zero_add]
        exact Nat.mod_eq_of_lt (by omega)
      rw [hzi]
      have hpw := passColumns_getD_mono (c :: cs) hfk w1 w2 w1 w2 hw i
      have hrm := passColumns_rem_mono (c :: cs) hfk w1 w2 w1 w2 hw
      have hg := slot_gain_mono (c :: cs).length i hrm
      rw [Nat.add_assoc, Nat.add_assoc]
      exact Nat.add_le_add hpw hg
    · have hge1 : (redistribute ((passColumns w1 (c :: cs) w1).2 / (c :: cs).length)
          ((passColumns w1 (c :: cs) w1).2 % (c :: cs).length) 0
          (passColumns w1 (c :: cs) w1).1).length ≤ i := by
        rw [redistribute_length, passColumns_length]
        omega
      have hge2 : (redistribute ((passColumns w2 (c :: cs) w2).2 / (c :: cs).length)
          ((passColumns w2 (c :: cs) w2).2 % (c :: cs).length) 0
          (passColumns w2 (c :: cs) w2).1).length ≤ i := by
        rw [redistribute_length, passColumns_length]
        omega
      rw [List.getD_eq_default _ _ hge1, List.getD_eq_default _ _ hge2]

/-- C9 as stated is false on the code: with declarations held fixed,
growing the available width from 11 to 12 shrinks the `Fill` column of
`[Percentage 50, Percentage 50, Fill]` from 1 to 0, and growing it from
655 to 656 shrinks the `MaxPercentage 100` column of
`[MaxPercentage 100, Fill]` from 655 to 0 (the `u16` product
`656 * 100` wraps). -/
theorem c9_counterexample :
    resolvedWidth [⟨0, .Percentage 50⟩, ⟨0, .Percentage 50⟩, ⟨0, .Fill⟩] 11 2 = 1 ∧
    resolvedWidth [⟨0, .Percentage 50⟩, ⟨0, .Percentage 50⟩, ⟨0, .Fill⟩] 12 2 = 0 ∧
    ¬ resolvedWidth [⟨0, .Percentage 50⟩, ⟨0, .Percentage 50⟩, ⟨0, .Fill⟩] 11 2 ≤
        resolvedWidth [⟨0, .Percentage 50⟩, ⟨0, .Percentage 50⟩, ⟨0, .Fill⟩] 12 2 ∧
    resolvedWidth [⟨1000, .MaxPercentage 100⟩, ⟨1000, .Fill⟩] 655 0 = 655 ∧
    resolvedWidth [⟨1000, .MaxPercentage 100⟩, ⟨1000, .Fill⟩] 656 0 = 0 := by
  refine ⟨?_, ?_, ?_, ?_, ?_⟩ <;> decide

/-- Witness for C9 (amended) on a two-column fixed-kind table whose first
column resolves to 3 at width 4 and to 5 at width 9. -/
theorem c9_witness :
    resolvedWidth [⟨2, .Fill⟩, ⟨0, .Length 3⟩] 4 0 ≤
      resolvedWidth [⟨2, .Fill⟩, ⟨0, .Length 3⟩] 9 0 :=
  c9_amended_fixed_kind_monotone [⟨2, .Fill⟩, ⟨0, .Length 3⟩] (by decide) (by decide)
    4 9 (by decide) 0

end Bottom
